import Mathlib

/-!
Verification development for the resilient JSON-RPC client library
(RPC transport with retry and batching, authenticated module calls,
TTL response cache with background refresh).

The definitions below are shallow embeddings of the Rust source:
  - src/rpc/mod.rs and src/rpc/rpc_client.rs   (envelopes, batching, retry)
  - src/modules/client/mod.rs                  (module call retry loop)
  - src/cache/cache.rs                         (QueryMapCache)
Machine integers are modelled as Nat or Int with explicit wrap where the
source casts (i64 to i32, u64 to u32, u64 multiplication overflow), time
instants as Nat, and JSON values as a small inductive mirroring the parts
of serde_json::Value exercised by the embedded code paths (only integer
numbers occur there).
-/

/-- JSON value, mirroring serde_json::Value as used by the client code.
Numbers are modelled as unbounded integers; the embedded code paths only
convert them with as_i64 and as_u64, which are range checked below. -/
inductive Json where
  | null
  | bool (b : Bool)
  | num (n : Int)
  | str (s : String)
  | arr (xs : List Json)
  | obj (fields : List (String × Json))

/-- Lookup of a field in a JSON object field list (first match). -/
def lookupField : List (String × Json) → String → Option Json
  | [], _ => none
  | (k, v) :: rest, key => if k = key then some v else lookupField rest key

/-- Value::get on an object: the field value when present, none otherwise. -/
def Json.get (v : Json) (key : String) : Option Json :=
  match v with
  | .obj fields => lookupField fields key
  | _ => none

/-- Value::as_i64: an integer number inside the i64 range, else none. -/
def Json.as_i64 : Json → Option Int
  | .num n => if -(2 ^ 63) ≤ n ∧ n < 2 ^ 63 then some n else none
  | _ => none

/-- Value::as_u64: an integer number inside the u64 range, else none. -/
def Json.as_u64 : Json → Option Nat
  | .num n => if 0 ≤ n ∧ n < 2 ^ 64 then some n.toNat else none
  | _ => none

/-- Value::as_str: the string payload of a JSON string, else none. -/
def Json.as_str : Json → Option String
  | .str s => some s
  | _ => none

/-- Value::is_object test. -/
def Json.is_object : Json → Bool
  | .obj _ => true
  | _ => false

/-- Two-complement wrap of an i64 value into i32, the semantics of the
Rust cast expression c as i32. -/
def i64_as_i32 (c : Int) : Int :=
  (c + 2 ^ 31) % 2 ^ 32 - 2 ^ 31

/-- Per-item error detail of a batch response (src/rpc/mod.rs,
struct RpcErrorDetail). request_id is a u32 modelled as Nat. -/
structure RpcErrorDetail where
  code : Int
  message : String
  request_id : Option Nat
  deriving DecidableEq

/-- Error enum of the library (src/error.rs, enum CommunexError). -/
inductive CommunexError where
  | InvalidAddress (msg : String)
  | InvalidTransaction (msg : String)
  | InvalidSeedPhrase (msg : String)
  | SigningError (msg : String)
  | InvalidSignature (msg : String)
  | KeyDerivationError (msg : String)
  | RpcError (code : Int) (message : String)
  | BatchRpcError (errors : List RpcErrorDetail)
  | MalformedResponse (msg : String)
  | ConnectionError (msg : String)
  | ParseError (msg : String)
  | CommunexError (msg : String)
  | InvalidBalance (msg : String)
  | InvalidAmount (msg : String)
  | InvalidDenom (msg : String)
  | ConfigError (msg : String)
  | ValidationError (msg : String)
  | RequestTimeout (msg : String)
  deriving DecidableEq

/-- Error enum of the module client (src/modules/client/types.rs,
enum ClientError). Durations are modelled in milliseconds. -/
inductive ClientError where
  | Timeout (ms : Nat)
  | HttpError (msg : String)
  | InvalidResponse (msg : String)
  | RateLimitExceeded
  | MaxRetriesExceeded
  | AccessDenied (msg : String)
  | EndpointNotFound (msg : String)
  | Unknown
  | RequestFailed (msg : String)
  | Unauthorized
  | MethodNotFound (msg : String)
  | ServerError (msg : String)
  | SerializationError (msg : String)
  | InvalidHeader
  deriving DecidableEq

namespace RpcClient

/-- RpcClient::handle_rpc_response (src/rpc/rpc_client.rs lines 51 to 68):
an error field yields RpcError with the extracted code (default -32603)
and message (default Unknown error); otherwise the result field is
required, and its absence is a ParseError. -/
def handle_rpc_response (value : Json) : Except CommunexError Json :=
  match value.get "error" with
  | some error =>
      .error (.RpcError
        ((((error.get "code").bind Json.as_i64).map i64_as_i32).getD (-32603))
        (((error.get "message").bind Json.as_str).getD "Unknown error"))
  | none =>
      match value.get "result" with
      | some r => .ok r
      | none => .error (.ParseError "Missing result field")

/-- Response handling of RpcClient::request_with_path (src/rpc/mod.rs
lines 102 to 114): an error field yields RpcError with default code
-32000 applied before the i32 cast; otherwise the result field is
returned, defaulting to an empty JSON object when absent. -/
def request_with_path_handle (response : Json) : Except CommunexError Json :=
  match response.get "error" with
  | some error =>
      .error (.RpcError
        (i64_as_i32 (((error.get "code").bind Json.as_i64).getD (-32000)))
        (((error.get "message").bind Json.as_str).getD "Unknown error"))
  | none => .ok ((response.get "result").getD (Json.obj []))

end RpcClient

/-- Batch of request envelopes (src/rpc/mod.rs, struct BatchRequest). -/
structure BatchRequest where
  requests : List Json

/-- BatchRequest::new. -/
def BatchRequest.new : BatchRequest := ⟨[]⟩

/-- BatchRequest::add_request (src/rpc/mod.rs lines 44 to 51): appends a
jsonrpc 2.0 envelope whose id is the current number of queued requests,
so ids are positional starting at 0. -/
def BatchRequest.add_request (b : BatchRequest) (method : String) (params : Json) :
    BatchRequest :=
  ⟨b.requests ++ [Json.obj
    [("jsonrpc", .str "2.0"), ("method", .str method),
     ("params", params), ("id", .num b.requests.length)]]⟩

/-- Loop body of BatchRequest::validate over the queued envelopes,
rejecting the first non-object at its index. -/
def BatchRequest.validateItems : List Json → Nat → Except CommunexError Unit
  | [], _ => .ok ()
  | r :: rest, i =>
      if r.is_object then BatchRequest.validateItems rest (i + 1)
      else .error (.ValidationError ("Invalid request at index " ++ toString i))

/-- BatchRequest::validate (src/rpc/mod.rs lines 53 to 75): rejects an
empty batch, a batch of more than 100 requests, and any non-object
request. -/
def BatchRequest.validate (b : BatchRequest) : Except CommunexError Unit :=
  if b.requests.isEmpty then
    .error (.ValidationError "Batch request cannot be empty")
  else if b.requests.length > 100 then
    .error (.ValidationError "Batch request cannot contain more than 100 requests")
  else BatchRequest.validateItems b.requests 0

/-- Demultiplexed outcome of a batch call (src/rpc/mod.rs,
struct BatchResponse). -/
structure BatchResponse where
  successes : List Json
  errors : List RpcErrorDetail

/-- Error detail extracted from one wire batch element carrying an error
field (src/rpc/rpc_client.rs lines 109 to 122): code defaults to -32603,
message to Unknown error, and the request id is read back from the
element id field as u64 and cast to u32. -/
def errorDetailOf (resp err : Json) : RpcErrorDetail :=
  { code := (((err.get "code").bind Json.as_i64).map i64_as_i32).getD (-32603)
    message := ((err.get "message").bind Json.as_str).getD "Unknown error"
    request_id := ((resp.get "id").bind Json.as_u64).map (fun id => id % 2 ^ 32) }

/-- Demultiplexing loop of RpcClient::batch_request (src/rpc/rpc_client.rs
lines 105 to 126): an element with an error field contributes an error
detail, otherwise an element with a result field contributes a success,
and an element with neither field contributes nothing. -/
def processBatchResponses : List Json → BatchResponse
  | [] => ⟨[], []⟩
  | resp :: rest =>
      let out := processBatchResponses rest
      match resp.get "error" with
      | some err => ⟨out.successes, errorDetailOf resp err :: out.errors⟩
      | none =>
          match resp.get "result" with
          | some result => ⟨result :: out.successes, out.errors⟩
          | none => out

/-- Result of a traced call, recording every body handed to the HTTP
transport so that fail-fast claims can be stated. -/
structure TracedResult (α : Type) where
  result : Except CommunexError α
  transportCalls : List (List Json)

/-- RpcClient::batch_request (src/rpc/rpc_client.rs lines 95 to 132): the
queued envelopes are posted unconditionally (no call to validate), the
wire outcome is modelled by the oracle argument (connection or parse
failure, or the parsed response array), and the array is demultiplexed.
-/
def RpcClient.batch_request (batch : BatchRequest)
    (wire : Except CommunexError (List Json)) : TracedResult BatchResponse :=
  { transportCalls := [batch.requests]
    result :=
      match wire with
      | .error e => .error e
      | .ok resps => .ok (processBatchResponses resps) }

/-- Trace of one run of a retry loop: the final outcome, the number of
invocations of the wrapped operation, and the sleeps performed (in
milliseconds, in order). -/
structure RetryTrace (ε α : Type) where
  result : Except ε α
  invocations : Nat
  delays : List Nat

/-- Loop of RpcClient::execute_with_retry (src/rpc/rpc_client.rs lines
207 to 232) with the while condition attempts < max_retries translated
into structural fuel remaining = max_retries - attempts. The operation is
modelled as a function from the attempt index (0 based) to its outcome.
After a failure the attempt counter is incremented and, when attempts is
still below max_retries, the loop sleeps 100 * 2 ^ attempts milliseconds
(u64 arithmetic) before the next attempt. -/
def RpcClient.retryAux (f : Nat → Except CommunexError α) :
    Nat → Nat → Option CommunexError → RetryTrace CommunexError α
  | 0, _, lastError =>
      ⟨.error (lastError.getD (.ConnectionError "Maximum retries exceeded")), 0, []⟩
  | remaining + 1, attempts, _ =>
      match f attempts with
      | .ok v => ⟨.ok v, 1, []⟩
      | .error e =>
          let rest := RpcClient.retryAux f remaining (attempts + 1) (some e)
          ⟨rest.result, rest.invocations + 1,
            match remaining with
            | 0 => rest.delays
            | _ + 1 => (100 * 2 ^ (attempts + 1)) % 2 ^ 64 :: rest.delays⟩

/-- RpcClient::execute_with_retry with config.max_retries = maxRetries. -/
def RpcClient.execute_with_retry (maxRetries : Nat)
    (f : Nat → Except CommunexError α) : RetryTrace CommunexError α :=
  RpcClient.retryAux f maxRetries 0 none

namespace ModuleClient

/-- ModuleClient::should_retry (src/modules/client/mod.rs lines 163 to
169): only Timeout and ServerError are retryable. -/
def should_retry : ClientError → Bool
  | .Timeout _ => true
  | .ServerError _ => true
  | _ => false

/-- ModuleClient::calculate_backoff (src/modules/client/mod.rs lines 171
to 173): 100 * 2 ^ retry milliseconds in u64 arithmetic. -/
def calculate_backoff (retry : Nat) : Nat :=
  (100 * 2 ^ retry) % 2 ^ 64

/-- Effective retry budget of ModuleClient::call (src/modules/client/
mod.rs lines 76 to 78): an endpoint configuration with allow_retries
false forces 0, otherwise the client level max_retries applies. -/
def effectiveMaxRetries (endpointAllowRetries : Option Bool) (configMax : Nat) : Nat :=
  match endpointAllowRetries with
  | some allow => if allow then configMax else 0
  | none => configMax

/-- Loop of ModuleClient::call (src/modules/client/mod.rs lines 80 to
94), the for loop over retry in 0 ..= max_retries translated into
structural fuel (max_retries + 1 - retry iterations left). A failure
returns immediately when the budget is exhausted or the error is not
retryable; otherwise the loop sleeps calculate_backoff retry and tries
again. The fallthrough after the loop returns the last error or Unknown,
matching the dead tail of the source. -/
def callAux (maxRetries : Nat) (f : Nat → Except ClientError β) :
    Nat → Nat → Option ClientError → RetryTrace ClientError β
  | 0, _, lastError => ⟨.error (lastError.getD .Unknown), 0, []⟩
  | fuel + 1, retry, _ =>
      match f retry with
      | .ok v => ⟨.ok v, 1, []⟩
      | .error e =>
          if retry == maxRetries || !should_retry e then
            ⟨.error e, 1, []⟩
          else
            let rest := callAux maxRetries f fuel (retry + 1) (some e)
            ⟨rest.result, rest.invocations + 1, calculate_backoff retry :: rest.delays⟩

/-- ModuleClient::call retry loop with effective budget maxRetries. -/
def call (maxRetries : Nat) (f : Nat → Except ClientError β) :
    RetryTrace ClientError β :=
  callAux maxRetries f (maxRetries + 1) 0 none

end ModuleClient

/-- Cached query value (src/cache/cache.rs, struct QueryResult). -/
structure QueryResult where
  data : String
  deriving DecidableEq

/-- Cache entry (src/cache/cache.rs, struct CacheEntry). Instants are
modelled as Nat. -/
structure CacheEntry where
  value : QueryResult
  expires_at : Nat
  deriving DecidableEq

/-- Cache metrics (src/cache/cache.rs, struct CacheMetrics). -/
structure CacheMetrics where
  hits : Nat
  misses : Nat
  refresh_failures : Nat
  refresh_success_count : Nat
  refresh_error_count : Nat
  current_entries : Nat
  deriving DecidableEq

/-- Cache configuration (src/cache/config.rs, struct CacheConfig), with
durations in the same Nat time unit as instants. -/
structure CacheConfig where
  ttl : Nat
  refresh_interval : Nat
  max_entries : Nat
  deriving DecidableEq

/-- State of QueryMapCache (src/cache/cache.rs lines 47 to 53): the entry
map, its configuration and the metrics. The HashMap is modelled as an
association list with unique keys; iteration order is the list order. -/
structure QueryMapCache where
  entries : List (String × CacheEntry)
  config : CacheConfig
  metrics : CacheMetrics
  deriving DecidableEq

/-- QueryMapCache::new with the given configuration. -/
def QueryMapCache.new (config : CacheConfig) : QueryMapCache :=
  ⟨[], config, ⟨0, 0, 0, 0, 0, 0⟩⟩

/-- HashMap::get on the modelled entry map: first entry with the key. -/
def lookupEntry : List (String × CacheEntry) → String → Option CacheEntry
  | [], _ => none
  | (k, e) :: rest, key => if k = key then some e else lookupEntry rest key

/-- HashMap::insert on the modelled entry map: replaces the entry in
place when the key is present, otherwise appends it. -/
def insertEntry : List (String × CacheEntry) → String → CacheEntry →
    List (String × CacheEntry)
  | [], key, e => [(key, e)]
  | (k, e0) :: rest, key, e =>
      if k = key then (key, e) :: rest else (k, e0) :: insertEntry rest key e

/-- HashMap::remove on the modelled entry map. -/
def removeKey : List (String × CacheEntry) → String → List (String × CacheEntry)
  | [], _ => []
  | (k, e) :: rest, key =>
      if k = key then removeKey rest key else (k, e) :: removeKey rest key

/-- Fold step of Iterator::min_by_key over entry expiry: keep the current
minimum unless the next element is strictly smaller, so the first minimum
in iteration order wins. -/
def minStep (acc : Option (String × CacheEntry)) (p : String × CacheEntry) :
    Option (String × CacheEntry) :=
  match acc with
  | none => some p
  | some q => if p.2.expires_at < q.2.expires_at then some p else some q

/-- Iterator::min_by_key over entry expiry (src/cache/cache.rs lines 83
to 85): the key of the entry with the smallest expires_at, keeping the
first minimum in iteration order. -/
def minKeyByExpiry (entries : List (String × CacheEntry)) : Option String :=
  (entries.foldl minStep none).map Prod.fst

/-- QueryMapCache::set (src/cache/cache.rs lines 76 to 94): insert with
expires_at = now + ttl, then if the map exceeds max_entries evict the
entry with the earliest expiry, and finally record the live size in the
metrics. -/
def QueryMapCache.set (c : QueryMapCache) (key : String) (value : QueryResult)
    (now : Nat) : QueryMapCache :=
  let entries1 := insertEntry c.entries key ⟨value, now + c.config.ttl⟩
  let entries2 :=
    if entries1.length > c.config.max_entries then
      match minKeyByExpiry entries1 with
      | some oldest => removeKey entries1 oldest
      | none => entries1
    else entries1
  { c with entries := entries2
           metrics := { c.metrics with current_entries := entries2.length } }

/-- QueryMapCache::get (src/cache/cache.rs lines 96 to 109): a present
entry with now strictly before expires_at is a hit returning its value;
every other case (absent, or present but stale) is a miss returning
none. -/
def QueryMapCache.get (c : QueryMapCache) (key : String) (now : Nat) :
    Option QueryResult × QueryMapCache :=
  match lookupEntry c.entries key with
  | some entry =>
      if now < entry.expires_at then
        (some entry.value,
         { c with metrics := { c.metrics with hits := c.metrics.hits + 1 } })
      else
        (none,
         { c with metrics := { c.metrics with misses := c.metrics.misses + 1 } })
  | none =>
      (none,
       { c with metrics := { c.metrics with misses := c.metrics.misses + 1 } })

/-- HashMap::get_mut followed by the in-place update of the refresh loop:
when the key is present its value is replaced and its expiry reset,
otherwise the map is unchanged. -/
def updateEntry : List (String × CacheEntry) → String → QueryResult → Nat →
    List (String × CacheEntry)
  | [], _, _, _ => []
  | (k, e) :: rest, key, v, exp =>
      if k = key then (k, ⟨v, exp⟩) :: rest
      else (k, e) :: updateEntry rest key v exp

/-- Per-key step of the background refresh loop of
QueryMapCache::start_background_refresh (src/cache/cache.rs lines 137 to
155): on handler success the entry, if still present, gets the new value
and expires_at = now + ttl and the refresh success counter increments; on
handler failure only the refresh error counter increments. -/
def QueryMapCache.refreshKey (c : QueryMapCache) (key : String)
    (handlerResult : Except CommunexError QueryResult) (now : Nat) :
    QueryMapCache :=
  match handlerResult with
  | .ok new_value =>
      { c with
        entries := updateEntry c.entries key new_value (now + c.config.ttl)
        metrics := { c.metrics with
          refresh_success_count := c.metrics.refresh_success_count + 1 } }
  | .error _ =>
      { c with metrics := { c.metrics with
          refresh_error_count := c.metrics.refresh_error_count + 1 } }

/-- Sequence of QueryMapCache::set calls, each with its own key, value
and call-time instant. -/
def insertAll (c : QueryMapCache) : List (String × QueryResult × Nat) → QueryMapCache
  | [] => c
  | (k, v, t) :: rest => insertAll (c.set k v t) rest

/-- Entry produced by one set call at time p.2.2 under a fixed ttl. -/
def mkCacheEntry (ttl : Nat) (p : String × QueryResult × Nat) : String × CacheEntry :=
  (p.1, ⟨p.2.1, p.2.2 + ttl⟩)

/-! Helper lemmas about the retry loops. -/

theorem rpc_retry_invocations_le (f : Nat → Except CommunexError α) :
    ∀ (rem att : Nat) (le : Option CommunexError),
      (RpcClient.retryAux f rem att le).invocations ≤ rem := by
  intro rem
  induction rem with
  | zero => intro att le; simp [RpcClient.retryAux]
  | succ r ih =>
      intro att le
      simp only [RpcClient.retryAux]
      cases hf : f att with
      | ok v => simp
      | error e =>
          simpa using Nat.succ_le_succ (ih (att + 1) (some e))

theorem rpc_retry_invocations_all_fail (f : Nat → Except CommunexError α)
    (hf : ∀ k, ∃ e, f k = .error e) :
    ∀ (rem att : Nat) (le : Option CommunexError),
      (RpcClient.retryAux f rem att le).invocations = rem := by
  intro rem
  induction rem with
  | zero => intro att le; simp [RpcClient.retryAux]
  | succ r ih =>
      intro att le
      obtain ⟨e, he⟩ := hf att
      simp [RpcClient.retryAux, he, ih (att + 1) (some e)]

theorem rpc_retry_delays_all_fail (f : Nat → Except CommunexError α)
    (hf : ∀ k, ∃ e, f k = .error e) :
    ∀ (rem att : Nat) (le : Option CommunexError),
      (RpcClient.retryAux f rem att le).delays
        = (List.range' (att + 1) (rem - 1)).map (fun k => (100 * 2 ^ k) % 2 ^ 64) := by
  intro rem
  induction rem with
  | zero => intro att le; simp [RpcClient.retryAux]
  | succ r ih =>
      intro att le
      obtain ⟨e, he⟩ := hf att
      cases r with
      | zero => simp [RpcClient.retryAux, he]
      | succ r2 =>
          simp only [RpcClient.retryAux, he]
          show 100 * 2 ^ (att + 1) % 2 ^ 64
              :: (RpcClient.retryAux f (r2 + 1) (att + 1) (some e)).delays
            = (List.range' (att + 1) (r2 + 1 + 1 - 1)).map
                (fun k => (100 * 2 ^ k) % 2 ^ 64)
          rw [ih (att + 1) (some e)]
          simp [List.range']

theorem module_call_invocations_le (m : Nat) (g : Nat → Except ClientError β) :
    ∀ (fuel r : Nat) (le : Option ClientError),
      (ModuleClient.callAux m g fuel r le).invocations ≤ fuel := by
  intro fuel
  induction fuel with
  | zero => intro r le; simp [ModuleClient.callAux]
  | succ fl ih =>
      intro r le
      simp only [ModuleClient.callAux]
      cases hg : g r with
      | ok v => simp
      | error e =>
          by_cases hb : (r == m || !ModuleClient.should_retry e) = true
          · simp [hb]
          · simp only [hb, if_false, Bool.false_eq_true]
            simpa using Nat.succ_le_succ (ih (r + 1) (some e))

theorem module_call_invocations_all_fail (m : Nat) (g : Nat → Except ClientError β)
    (hg : ∀ k, ∃ e, g k = .error e ∧ ModuleClient.should_retry e = true) :
    ∀ (fuel r : Nat) (le : Option ClientError), fuel + r = m + 1 → r ≤ m →
      (ModuleClient.callAux m g fuel r le).invocations = fuel := by
  intro fuel
  induction fuel with
  | zero => intro r le _ _; simp [ModuleClient.callAux]
  | succ fl ih =>
      intro r le hfr hrm
      obtain ⟨e, he, hret⟩ := hg r
      simp only [ModuleClient.callAux, he]
      by_cases hr : r = m
      · have hfl : fl = 0 := by omega
        simp [hr, hfl]
      · have hb : (r == m) = false := by simp [hr]
        simp only [hb, hret, Bool.not_true, Bool.or_false, Bool.false_eq_true,
          if_false]
        have := ih (r + 1) (some e) (by omega) (by omega)
        simpa using this

theorem module_call_delays_all_fail (m : Nat) (g : Nat → Except ClientError β)
    (hg : ∀ k, ∃ e, g k = .error e ∧ ModuleClient.should_retry e = true) :
    ∀ (fuel r : Nat) (le : Option ClientError), fuel + r = m + 1 → r ≤ m →
      (ModuleClient.callAux m g fuel r le).delays
        = (List.range' r (m - r)).map ModuleClient.calculate_backoff := by
  intro fuel
  induction fuel with
  | zero => intro r le hfr hrm; omega
  | succ fl ih =>
      intro r le hfr hrm
      obtain ⟨e, he, hret⟩ := hg r
      simp only [ModuleClient.callAux, he]
      by_cases hr : r = m
      · simp [hr]
      · have hb : (r == m) = false := by simp [hr]
        simp only [hb, hret, Bool.not_true, Bool.or_false, Bool.false_eq_true,
          if_false]
        rw [ih (r + 1) (some e) (by omega) (by omega)]
        have hmr : m - r = (m - (r + 1)) + 1 := by omega
        rw [hmr]
        simp [List.range']

/-! Helper lemma about the batch demultiplexing loop: under the protocol
assumptions (every element carries an error or a result field, and the
element ids echo the positional request ids), the outcome partitions the
indexed elements, preserving order in both sequences. -/

theorem processBatch_characterization :
    ∀ (resps : List Json) (off : Nat),
      (∀ r ∈ resps, ((r.get "error").isNone → (r.get "result").isSome)) →
      resps.map (fun r => (r.get "id").bind Json.as_u64)
          = (List.range' off resps.length).map some →
      (processBatchResponses resps).successes.length
          + (processBatchResponses resps).errors.length = resps.length ∧
      (processBatchResponses resps).successes
          = (((List.range' off resps.length).zip resps).filter
               (fun p => (p.2.get "error").isNone)).map
              (fun p => (p.2.get "result").getD .null) ∧
      (processBatchResponses resps).errors.map RpcErrorDetail.request_id
          = (((List.range' off resps.length).zip resps).filter
               (fun p => (p.2.get "error").isSome)).map
              (fun p => some (p.1 % 2 ^ 32)) := by
  intro resps
  induction resps with
  | nil => intro off _ _; simp [processBatchResponses]
  | cons r rest ih =>
      intro off hone hids
      have h1 := hone r (List.mem_cons_self r rest)
      have hone2 : ∀ x ∈ rest, ((x.get "error").isNone → (x.get "result").isSome) :=
        fun x hx => hone x (List.mem_cons_of_mem r hx)
      rw [List.length_cons, List.range'] at hids
      simp only [List.map_cons, List.cons.injEq] at hids
      obtain ⟨hid0, hidrest⟩ := hids
      obtain ⟨ihlen, ihsucc, iherr⟩ := ih (off + 1) hone2 hidrest
      simp only [List.length_cons, List.range', List.zip_cons_cons]
      cases herr : r.get "error" with
      | some err =>
          simp only [processBatchResponses, herr]
          refine ⟨?_, ?_, ?_⟩
          · simp only [List.length_cons]
            omega
          · simpa [herr] using ihsucc
          · simp only [List.map_cons, List.filter_cons, herr, Option.isSome_some,
              if_true]
            rw [show (errorDetailOf r err).request_id = some (off % 2 ^ 32) by
              simp [errorDetailOf, hid0]]
            simpa [herr] using congrArg (List.cons (some (off % 2 ^ 32))) iherr
      | none =>
          have hsome : (r.get "result").isSome = true := by
            apply h1; simp [herr]
          cases hres : r.get "result" with
          | none => rw [hres] at hsome; simp at hsome
          | some v =>
              simp only [processBatchResponses, herr, hres]
              refine ⟨?_, ?_, ?_⟩
              · simp only [List.length_cons]
                omega
              · simp only [List.filter_cons, herr, Option.isNone_none, if_true,
                  List.map_cons, hres]
                simpa [herr] using congrArg (List.cons v) ihsucc
              · simpa [herr] using iherr

theorem module_call_first_nonretryable (m : Nat) (g : Nat → Except ClientError β)
    (e : ClientError) (hne : ModuleClient.should_retry e = false) :
    ∀ (j fuel r : Nat) (le : Option ClientError), fuel + r = m + 1 → r + j ≤ m →
      (∀ i, i < j → ∃ ei, g (r + i) = .error ei ∧ ModuleClient.should_retry ei = true) →
      g (r + j) = .error e →
      (ModuleClient.callAux m g fuel r le).result = .error e ∧
      (ModuleClient.callAux m g fuel r le).invocations = j + 1 := by
  intro j
  induction j with
  | zero =>
      intro fuel r le hfr hrm _ hj
      cases fuel with
      | zero => omega
      | succ fl =>
          simp only [ModuleClient.callAux]
          rw [show r + 0 = r from rfl] at hj
          simp [hj, hne]
  | succ j ih =>
      intro fuel r le hfr hrm hpre hj
      cases fuel with
      | zero => omega
      | succ fl =>
          obtain ⟨e0, he0, hret0⟩ := hpre 0 (by omega)
          rw [show r + 0 = r from rfl] at he0
          simp only [ModuleClient.callAux, he0]
          have hr : r ≠ m := by omega
          have hb : (r == m) = false := by simp [hr]
          simp only [hb, hret0, Bool.not_true, Bool.or_false, Bool.false_eq_true,
            if_false]
          have hrec := ih fl (r + 1) (some e0) (by omega) (by omega)
            (fun i hi => by
              have := hpre (i + 1) (by omega)
              simpa [Nat.add_assoc, Nat.add_comm 1 i] using this)
            (by simpa [Nat.add_assoc, Nat.add_comm 1 j] using hj)
          exact ⟨hrec.1, by simp [hrec.2]⟩

/-! Helper lemmas about the modelled entry map. -/

theorem lookupEntry_eq_none :
    ∀ (l : List (String × CacheEntry)) (key : String),
      lookupEntry l key = none ↔ key ∉ l.map Prod.fst := by
  intro l key
  induction l with
  | nil => simp [lookupEntry]
  | cons p rest ih =>
      obtain ⟨k, e⟩ := p
      by_cases hk : k = key
      · simp [lookupEntry, hk]
      · simp only [lookupEntry, hk, if_false, List.map_cons, List.mem_cons]
        rw [ih]
        constructor
        · intro h hcontra
          rcases hcontra with h1 | h1
          · exact hk h1.symm
          · exact h h1
        · intro h h1
          exact h (Or.inr h1)

theorem insertEntry_fresh :
    ∀ (l : List (String × CacheEntry)) (key : String) (e : CacheEntry),
      key ∉ l.map Prod.fst → insertEntry l key e = l ++ [(key, e)] := by
  intro l key e
  induction l with
  | nil => intro _; simp [insertEntry]
  | cons p rest ih =>
      intro hk
      obtain ⟨k, e0⟩ := p
      simp only [List.map_cons, List.mem_cons] at hk
      push_neg at hk
      have hne : ¬ k = key := fun h => hk.1 h.symm
      simp [insertEntry, hne, ih hk.2]

theorem insertEntry_present_map_fst :
    ∀ (l : List (String × CacheEntry)) (key : String) (e : CacheEntry),
      key ∈ l.map Prod.fst →
      (insertEntry l key e).map Prod.fst = l.map Prod.fst := by
  intro l key e
  induction l with
  | nil => intro h; simp at h
  | cons p rest ih =>
      intro hk
      obtain ⟨k, e0⟩ := p
      by_cases hkk : k = key
      · simp [insertEntry, hkk]
      · have hmem : key ∈ rest.map Prod.fst := by
          simp only [List.map_cons, List.mem_cons] at hk
          rcases hk with h | h
          · exact absurd (Eq.symm h) hkk
          · exact h
        simp [insertEntry, hkk, ih hmem]

theorem insertEntry_map_fst_nodup :
    ∀ (l : List (String × CacheEntry)) (key : String) (e : CacheEntry),
      (l.map Prod.fst).Nodup → ((insertEntry l key e).map Prod.fst).Nodup := by
  intro l key e hn
  by_cases hk : key ∈ l.map Prod.fst
  · rw [insertEntry_present_map_fst l key e hk]; exact hn
  · rw [insertEntry_fresh l key e hk]
    simp only [List.map_append, List.map_cons, List.map_nil]
    refine List.Nodup.append hn (List.nodup_singleton key) ?_
    intro x hx hx2
    simp only [List.mem_singleton] at hx2
    exact hk (hx2 ▸ hx)

theorem removeKey_fresh :
    ∀ (l : List (String × CacheEntry)) (key : String),
      key ∉ l.map Prod.fst → removeKey l key = l := by
  intro l key
  induction l with
  | nil => intro _; simp [removeKey]
  | cons p rest ih =>
      intro hk
      obtain ⟨k, e⟩ := p
      simp only [List.map_cons, List.mem_cons] at hk
      push_neg at hk
      have hne : ¬ k = key := fun h => hk.1 h.symm
      simp [removeKey, hne, ih hk.2]

theorem removeKey_length :
    ∀ (l : List (String × CacheEntry)) (key : String),
      key ∈ l.map Prod.fst → (l.map Prod.fst).Nodup →
      (removeKey l key).length + 1 = l.length := by
  intro l key
  induction l with
  | nil => intro h _; simp at h
  | cons p rest ih =>
      intro hk hn
      obtain ⟨k, e⟩ := p
      simp only [List.map_cons, List.nodup_cons] at hn
      by_cases hkk : k = key
      · have hfresh : key ∉ rest.map Prod.fst := hkk ▸ hn.1
        simp [removeKey, hkk, removeKey_fresh rest key hfresh]
      · have hmem : key ∈ rest.map Prod.fst := by
          simp only [List.map_cons, List.mem_cons] at hk
          rcases hk with h | h
          · exact absurd (Eq.symm h) hkk
          · exact h
        simp only [removeKey, hkk, if_false, List.length_cons]
        rw [← ih hmem hn.2]

theorem foldl_minStep_mem :
    ∀ (l : List (String × CacheEntry)) (acc : Option (String × CacheEntry))
      (q : String × CacheEntry),
      l.foldl minStep acc = some q → acc = some q ∨ q ∈ l := by
  intro l
  induction l with
  | nil => intro acc q h; exact Or.inl h
  | cons p rest ih =>
      intro acc q h
      rcases ih (minStep acc p) q h with h2 | h2
      · cases acc with
        | none =>
            have hpq : p = q := by simpa [minStep] using h2
            exact Or.inr (List.mem_cons.mpr (Or.inl hpq.symm))
        | some q0 =>
            simp only [minStep] at h2
            by_cases hlt : p.2.expires_at < q0.2.expires_at
            · rw [if_pos hlt] at h2
              have hpq : p = q := Option.some.inj h2
              exact Or.inr (List.mem_cons.mpr (Or.inl hpq.symm))
            · rw [if_neg hlt] at h2
              exact Or.inl h2
      · exact Or.inr (List.mem_cons_of_mem p h2)

theorem foldl_minStep_keeps :
    ∀ (l : List (String × CacheEntry)) (q : String × CacheEntry),
      (∀ x ∈ l, ¬ x.2.expires_at < q.2.expires_at) →
      l.foldl minStep (some q) = some q := by
  intro l
  induction l with
  | nil => intro q _; rfl
  | cons p rest ih =>
      intro q hq
      have hstep : minStep (some q) p = some q := by
        simp [minStep, hq p (List.mem_cons_self p rest)]
      rw [List.foldl_cons, hstep]
      exact ih q (fun x hx => hq x (List.mem_cons_of_mem p hx))

theorem minKeyByExpiry_head_min (p : String × CacheEntry)
    (rest : List (String × CacheEntry))
    (hmin : ∀ x ∈ rest, ¬ x.2.expires_at < p.2.expires_at) :
    minKeyByExpiry (p :: rest) = some p.1 := by
  unfold minKeyByExpiry
  rw [List.foldl_cons, show minStep none p = some p from rfl,
    foldl_minStep_keeps rest p hmin]
  rfl

theorem minKeyByExpiry_mem (l : List (String × CacheEntry)) (k : String)
    (h : minKeyByExpiry l = some k) : k ∈ l.map Prod.fst := by
  unfold minKeyByExpiry at h
  cases hf : l.foldl minStep none with
  | none => rw [hf] at h; simp at h
  | some q =>
      rw [hf] at h
      have hqk : q.1 = k := by simpa using h
      rcases foldl_minStep_mem l none q hf with h2 | h2
      · simp at h2
      · exact hqk ▸ List.mem_map_of_mem Prod.fst h2

theorem lookupEntry_updateEntry_self :
    ∀ (l : List (String × CacheEntry)) (key : String) (v : QueryResult) (exp : Nat)
      (e0 : CacheEntry), lookupEntry l key = some e0 →
      lookupEntry (updateEntry l key v exp) key = some ⟨v, exp⟩ := by
  intro l key v exp
  induction l with
  | nil => intro e0 h; simp [lookupEntry] at h
  | cons p rest ih =>
      intro e0 h
      obtain ⟨k, e⟩ := p
      by_cases hk : k = key
      · simp [updateEntry, lookupEntry, hk]
      · simp only [lookupEntry, hk, if_false] at h
        simp only [updateEntry, hk, if_false, lookupEntry]
        exact ih e0 h

theorem updateEntry_map_fst :
    ∀ (l : List (String × CacheEntry)) (key : String) (v : QueryResult) (exp : Nat),
      (updateEntry l key v exp).map Prod.fst = l.map Prod.fst := by
  intro l key v exp
  induction l with
  | nil => rfl
  | cons p rest ih =>
      obtain ⟨k, e⟩ := p
      by_cases hk : k = key
      · simp [updateEntry, hk]
      · simp [updateEntry, hk, ih]

theorem insertAll_append (xs ys : List (String × QueryResult × Nat)) :
    ∀ c, insertAll c (xs ++ ys) = insertAll (insertAll c xs) ys := by
  induction xs with
  | nil => intro c; rfl
  | cons p rest ih =>
      intro c
      obtain ⟨k, v, t⟩ := p
      simp only [List.cons_append, insertAll]
      exact ih (c.set k v t)

theorem foldl_minStep_some :
    ∀ (l : List (String × CacheEntry)) (q : String × CacheEntry),
      ∃ r, l.foldl minStep (some q) = some r := by
  intro l
  induction l with
  | nil => intro q; exact ⟨q, rfl⟩
  | cons p rest ih =>
      intro q
      rw [List.foldl_cons]
      by_cases hlt : p.2.expires_at < q.2.expires_at
      · rw [show minStep (some q) p = some p by simp [minStep, hlt]]
        exact ih p
      · rw [show minStep (some q) p = some q by simp [minStep, hlt]]
        exact ih q

theorem minKeyByExpiry_some_of_ne_nil (l : List (String × CacheEntry))
    (h : l ≠ []) : ∃ k, minKeyByExpiry l = some k := by
  cases l with
  | nil => exact absurd rfl h
  | cons p rest =>
      obtain ⟨r, hr⟩ := foldl_minStep_some rest p
      refine ⟨r.1, ?_⟩
      unfold minKeyByExpiry
      rw [List.foldl_cons, show minStep none p = some p from rfl, hr]
      rfl

theorem set_overflow_evicts_one (c : QueryMapCache) (key : String)
    (v : QueryResult) (now : Nat)
    (hnodup : (c.entries.map Prod.fst).Nodup)
    (hover : (insertEntry c.entries key ⟨v, now + c.config.ttl⟩).length
        > c.config.max_entries) :
    (c.set key v now).entries.length + 1
      = (insertEntry c.entries key ⟨v, now + c.config.ttl⟩).length := by
  have hEnodup : ((insertEntry c.entries key ⟨v, now + c.config.ttl⟩).map
      Prod.fst).Nodup := insertEntry_map_fst_nodup _ _ _ hnodup
  have hne : insertEntry c.entries key ⟨v, now + c.config.ttl⟩ ≠ [] := by
    intro h
    rw [h] at hover
    simp at hover
  obtain ⟨k2, hk2⟩ := minKeyByExpiry_some_of_ne_nil _ hne
  have hset : (c.set key v now).entries
      = removeKey (insertEntry c.entries key ⟨v, now + c.config.ttl⟩) k2 := by
    simp [QueryMapCache.set, hover, hk2]
  rw [hset]
  exact removeKey_length _ _ (minKeyByExpiry_mem _ _ hk2) hEnodup

theorem insertAll_no_evict :
    ∀ (ps : List (String × QueryResult × Nat)) (c : QueryMapCache),
      (∀ p ∈ ps, p.1 ∉ c.entries.map Prod.fst) →
      (ps.map (fun p => p.1)).Nodup →
      c.entries.length + ps.length ≤ c.config.max_entries →
      (insertAll c ps).entries
          = c.entries ++ ps.map (mkCacheEntry c.config.ttl)
        ∧ (insertAll c ps).config = c.config := by
  intro ps
  induction ps with
  | nil => intro c _ _ _; simp [insertAll]
  | cons p rest ih =>
      intro c hfresh hnodup hlen
      obtain ⟨k, v, t⟩ := p
      have hkf : k ∉ c.entries.map Prod.fst :=
        hfresh (k, v, t) (List.mem_cons_self _ _)
      have hins : insertEntry c.entries k ⟨v, t + c.config.ttl⟩
          = c.entries ++ [(k, ⟨v, t + c.config.ttl⟩)] :=
        insertEntry_fresh _ _ _ hkf
      have hnoev : ¬ ((insertEntry c.entries k ⟨v, t + c.config.ttl⟩).length
          > c.config.max_entries) := by
        rw [hins]
        simp only [List.length_append, List.length_cons, List.length_nil]
        simp only [List.length_cons] at hlen
        omega
      have hset : (c.set k v t).entries = c.entries ++ [(k, ⟨v, t + c.config.ttl⟩)] := by
        simp only [QueryMapCache.set]
        rw [if_neg hnoev]
        exact hins
      have hcfg : (c.set k v t).config = c.config := by
        simp [QueryMapCache.set]
      simp only [List.map_cons, List.nodup_cons] at hnodup
      have hfresh2 : ∀ q ∈ rest, q.1 ∉ (c.set k v t).entries.map Prod.fst := by
        intro q hq
        rw [hset]
        simp only [List.map_append, List.map_cons, List.map_nil, List.mem_append,
          List.mem_singleton]
        push_neg
        refine ⟨hfresh q (List.mem_cons_of_mem _ hq), ?_⟩
        intro hqk
        exact hnodup.1 (hqk ▸ List.mem_map_of_mem (fun p => p.1) hq)
      have hlen2 : (c.set k v t).entries.length + rest.length
          ≤ (c.set k v t).config.max_entries := by
        rw [hset, hcfg]
        simp only [List.length_append, List.length_cons, List.length_nil]
        simp only [List.length_cons] at hlen
        omega
      obtain ⟨ihe, ihc⟩ := ih (c.set k v t) hfresh2 hnodup.2 hlen2
      constructor
      · show (insertAll (c.set k v t) rest).entries = _
        rw [ihe, hset, hcfg]
        simp [mkCacheEntry]
      · show (insertAll (c.set k v t) rest).config = _
        rw [ihc, hcfg]

theorem cache_eviction_scenario (cfg : CacheConfig)
    (ps : List (String × QueryResult × Nat))
    (hlen : ps.length = cfg.max_entries + 1)
    (hnodup : (ps.map (fun p => p.1)).Nodup)
    (hmono : (ps.map (fun p => p.2.2)).Pairwise (· < ·)) :
    (insertAll (QueryMapCache.new cfg) ps).entries.length = cfg.max_entries ∧
    (insertAll (QueryMapCache.new cfg) ps).entries.map Prod.fst
        = (ps.map (fun p => p.1)).tail ∧
    ∀ p0 ∈ ps.head?,
      lookupEntry (insertAll (QueryMapCache.new cfg) ps).entries p0.1 = none := by
  have hpos : ps ≠ [] := by
    intro h
    rw [h] at hlen
    simp at hlen
  obtain ⟨qs, q, hqs⟩ := (List.eq_nil_or_concat ps).resolve_left hpos
  rw [List.concat_eq_append] at hqs
  obtain ⟨qk, qv, qt⟩ := q
  have hqslen : qs.length = cfg.max_entries := by
    rw [hqs] at hlen
    simp only [List.length_append, List.length_cons, List.length_nil] at hlen
    omega
  have hnodup2 := hnodup
  rw [hqs, List.map_append, List.map_cons, List.map_nil] at hnodup2
  rw [List.nodup_append] at hnodup2
  obtain ⟨hnqs, _, hdisj⟩ := hnodup2
  have hqk_fresh : qk ∉ qs.map (fun p => p.1) := by
    intro hmem
    exact hdisj hmem (List.mem_singleton.mpr rfl)
  obtain ⟨hc1e, hc1cfg⟩ := insertAll_no_evict qs (QueryMapCache.new cfg)
    (by intro p _; simp [QueryMapCache.new]) hnqs
    (by simp [QueryMapCache.new]; omega)
  have hfinal : insertAll (QueryMapCache.new cfg) ps
      = (insertAll (QueryMapCache.new cfg) qs).set qk qv qt := by
    rw [hqs, insertAll_append]
    rfl
  have hc1keys : (insertAll (QueryMapCache.new cfg) qs).entries.map Prod.fst
      = qs.map (fun p => p.1) := by
    rw [hc1e]
    simp [QueryMapCache.new, mkCacheEntry, Function.comp]
  have httl : (insertAll (QueryMapCache.new cfg) qs).config.ttl = cfg.ttl := by
    rw [hc1cfg]
    rfl
  have hmax : (insertAll (QueryMapCache.new cfg) qs).config.max_entries
      = cfg.max_entries := by
    rw [hc1cfg]
    rfl
  have hE : insertEntry (insertAll (QueryMapCache.new cfg) qs).entries qk
      ⟨qv, qt + (insertAll (QueryMapCache.new cfg) qs).config.ttl⟩
      = ps.map (mkCacheEntry cfg.ttl) := by
    rw [httl, insertEntry_fresh _ _ _ (hc1keys ▸ hqk_fresh), hc1e, hqs]
    simp [QueryMapCache.new, mkCacheEntry]
  have hElen : (ps.map (mkCacheEntry cfg.ttl)).length = cfg.max_entries + 1 := by
    simp [hlen]
  obtain ⟨p0, ptail, hcons⟩ := List.exists_cons_of_ne_nil hpos
  have hpfresh : p0.1 ∉ ptail.map (fun p => p.1) := by
    rw [hcons] at hnodup
    simp only [List.map_cons, List.nodup_cons] at hnodup
    exact hnodup.1
  have hmin : minKeyByExpiry (ps.map (mkCacheEntry cfg.ttl)) = some p0.1 := by
    rw [hcons, List.map_cons]
    have := minKeyByExpiry_head_min (mkCacheEntry cfg.ttl p0)
      (ptail.map (mkCacheEntry cfg.ttl)) ?_
    · simpa [mkCacheEntry] using this
    · intro x hx
      simp only [List.mem_map] at hx
      obtain ⟨p, hp, hxp⟩ := hx
      have hord : p0.2.2 < p.2.2 := by
        rw [hcons, List.map_cons, List.pairwise_cons] at hmono
        exact hmono.1 p.2.2 (List.mem_map_of_mem _ hp)
      rw [← hxp]
      simp only [mkCacheEntry]
      omega
  have hremove : removeKey (ps.map (mkCacheEntry cfg.ttl)) p0.1
      = ptail.map (mkCacheEntry cfg.ttl) := by
    rw [hcons, List.map_cons]
    show removeKey ((p0.1, _) :: _) p0.1 = _
    rw [show ∀ e rest, removeKey ((p0.1, e) :: rest) p0.1 = removeKey rest p0.1 by
      intro e rest; simp [removeKey]]
    apply removeKey_fresh
    intro hmem
    apply hpfresh
    simpa [mkCacheEntry, Function.comp] using hmem
  have hsete : ((insertAll (QueryMapCache.new cfg) qs).set qk qv qt).entries
      = ptail.map (mkCacheEntry cfg.ttl) := by
    simp only [QueryMapCache.set]
    rw [if_pos (by rw [hE, hElen, hmax]; omega)]
    rw [hE, hmin]
    exact hremove
  rw [hfinal, hsete]
  refine ⟨?_, ?_, ?_⟩
  · have : ptail.length + 1 = cfg.max_entries + 1 := by
      rw [hcons] at hlen
      simpa using hlen
    simpa using this
  · rw [hcons]
    simp [mkCacheEntry, Function.comp]
  · intro p1 hp1
    rw [hcons] at hp1
    simp only [List.head?_cons, Option.mem_def, Option.some.injEq] at hp1
    rw [lookupEntry_eq_none]
    intro hmem
    apply hpfresh
    rw [hp1]
    simpa [mkCacheEntry, Function.comp] using hmem

/-! Claim theorems, witnesses and counterexamples. -/

/-- Claim C1, counterexample: with max_retries = 1 and an operation that
fails every attempt with a retryable timeout error,
RpcClient::execute_with_retry invokes the operation exactly once, not the
claimed max_retries + 1 = 2 times, because the loop condition is
attempts < max_retries. -/
theorem claim1_counterexample :
    (RpcClient.execute_with_retry 1
      (fun _ => (Except.error (CommunexError.RequestTimeout "timed out")
        : Except CommunexError Unit))).invocations = 1
    ∧ (1 : Nat) ≠ 1 + 1 :=
  ⟨rfl, by decide⟩

/-- Claim C1, amended: with max_retries = n, ModuleClient::call invokes
the wrapped operation at most n + 1 times and exactly n + 1 times when
every attempt fails with a retryable error, while
RpcClient::execute_with_retry invokes it at most n times and exactly n
times when every attempt fails. -/
theorem claim1_retry_attempt_counts (n : Nat)
    (f f2 : Nat → Except CommunexError α) (g g2 : Nat → Except ClientError β)
    (hf : ∀ k, ∃ e, f k = .error e)
    (hg : ∀ k, ∃ e, g k = .error e ∧ ModuleClient.should_retry e = true) :
    (RpcClient.execute_with_retry n f2).invocations ≤ n ∧
    (RpcClient.execute_with_retry n f).invocations = n ∧
    (ModuleClient.call n g2).invocations ≤ n + 1 ∧
    (ModuleClient.call n g).invocations = n + 1 :=
  ⟨rpc_retry_invocations_le f2 n 0 none,
   rpc_retry_invocations_all_fail f hf n 0 none,
   module_call_invocations_le n g2 (n + 1) 0 none,
   module_call_invocations_all_fail n g hg (n + 1) 0 none (by omega) (by omega)⟩

/-- Claim C1 witness: at n = 2, the rpc loop performs 2 invocations and
the module loop 3 when every attempt fails with a retryable error. -/
theorem claim1_retry_attempt_counts_witness :
    (RpcClient.execute_with_retry 2
      (fun _ => (Except.error (CommunexError.RequestTimeout "t")
        : Except CommunexError Unit))).invocations = 2 ∧
    (ModuleClient.call 2
      (fun _ => (Except.error (ClientError.Timeout 30000)
        : Except ClientError Unit))).invocations = 3 := by
  have h := claim1_retry_attempt_counts 2
    (fun _ => (Except.error (CommunexError.RequestTimeout "t")
      : Except CommunexError Unit))
    (fun _ => (Except.error (CommunexError.RequestTimeout "t")
      : Except CommunexError Unit))
    (fun _ => (Except.error (ClientError.Timeout 30000)
      : Except ClientError Unit))
    (fun _ => (Except.error (ClientError.Timeout 30000)
      : Except ClientError Unit))
    (fun _ => ⟨CommunexError.RequestTimeout "t", rfl⟩)
    (fun _ => ⟨ClientError.Timeout 30000, rfl, rfl⟩)
  exact ⟨h.2.1, h.2.2.2⟩

/-- Claim C4, counterexample: a ParseError is not a timeout and not a
server error, yet RpcClient::execute_with_retry with max_retries = 3
invokes the failing operation 3 times instead of returning after the
first attempt: this loop performs no error classification at all. -/
theorem claim4_counterexample :
    (RpcClient.execute_with_retry 3
      (fun _ => (Except.error (CommunexError.ParseError "bad json")
        : Except CommunexError Unit))).invocations = 3
    ∧ (3 : Nat) ≠ 1 :=
  ⟨rfl, by decide⟩

/-- Claim C4, amended: ModuleClient::call returns a non retryable error
(anything other than Timeout or ServerError) immediately after the
attempt that produced it, with no further invocation, while
RpcClient::execute_with_retry retries every error indiscriminately and
consumes its whole attempt budget on any persistent failure. -/
theorem claim4_error_classification (m j : Nat) (g : Nat → Except ClientError β)
    (e : ClientError) (f : Nat → Except CommunexError α)
    (hne : ModuleClient.should_retry e = false) (hj : j ≤ m)
    (hpre : ∀ i, i < j → ∃ ei, g i = .error ei ∧ ModuleClient.should_retry ei = true)
    (hje : g j = .error e)
    (hf : ∀ k, ∃ er, f k = .error er) :
    (ModuleClient.call m g).result = .error e ∧
    (ModuleClient.call m g).invocations = j + 1 ∧
    (RpcClient.execute_with_retry m f).invocations = m := by
  have h := module_call_first_nonretryable m g e hne j (m + 1) 0 none
    (by omega) (by omega) (by simpa using hpre) (by simpa using hje)
  exact ⟨h.1, h.2, rpc_retry_invocations_all_fail f hf m 0 none⟩

/-- Claim C4 witness: with budget 2, a retryable ServerError on attempt 0
followed by a terminal InvalidHeader on attempt 1 stops the module loop
after 2 invocations, returning InvalidHeader. -/
theorem claim4_error_classification_witness :
    (ModuleClient.call 2 (fun i => if i = 0
        then (Except.error (ClientError.ServerError "500") : Except ClientError Unit)
        else Except.error ClientError.InvalidHeader)).invocations = 2 := by
  have h := claim4_error_classification 2 1
    (fun i => if i = 0
      then (Except.error (ClientError.ServerError "500") : Except ClientError Unit)
      else Except.error ClientError.InvalidHeader)
    ClientError.InvalidHeader
    (fun _ => (Except.error (CommunexError.ParseError "x")
      : Except CommunexError Unit))
    rfl (by omega)
    (fun i hi => ⟨ClientError.ServerError "500", by
      have hi0 : i = 0 := by omega
      subst hi0
      exact ⟨rfl, rfl⟩⟩)
    rfl
    (fun _ => ⟨CommunexError.ParseError "x", rfl⟩)
  exact h.2.1

/-- Claim C9, counterexample: with max_retries = 2 and every attempt
failing, RpcClient::execute_with_retry sleeps 200 ms before its first
retry, not base_delay * 2 ^ 0 = 100 ms, because it doubles with the
already incremented attempt counter. -/
theorem claim9_counterexample :
    (RpcClient.execute_with_retry 2
      (fun _ => (Except.error (CommunexError.RequestTimeout "t")
        : Except CommunexError Unit))).delays = [200] ∧
    (200 : Nat) ≠ 100 :=
  ⟨rfl, by decide⟩

/-- Claim C9, amended: under persistent retryable failure,
ModuleClient::call sleeps base * 2 ^ (k - 1) = 100 * 2 ^ (k - 1)
milliseconds before retry k (so the first retry waits 100 ms), while
RpcClient::execute_with_retry sleeps 100 * 2 ^ k milliseconds before
retry k (so its first retry waits 200 ms); both in wrapping u64
arithmetic. -/
theorem claim9_backoff_schedule (n : Nat) (f : Nat → Except CommunexError α)
    (g : Nat → Except ClientError β)
    (hf : ∀ k, ∃ e, f k = .error e)
    (hg : ∀ k, ∃ e, g k = .error e ∧ ModuleClient.should_retry e = true) :
    (ModuleClient.call n g).delays
        = (List.range n).map (fun k => (100 * 2 ^ k) % 2 ^ 64) ∧
    (RpcClient.execute_with_retry n f).delays
        = (List.range' 1 (n - 1)).map (fun k => (100 * 2 ^ k) % 2 ^ 64) := by
  constructor
  · have h := module_call_delays_all_fail n g hg (n + 1) 0 none (by omega) (by omega)
    show (ModuleClient.callAux n g (n + 1) 0 none).delays = _
    rw [h, List.range_eq_range']
    simp only [Nat.sub_zero]
    rfl
  · exact rpc_retry_delays_all_fail f hf n 0 none

/-- Claim C9 witness: at n = 2 the module loop sleeps [100, 200] ms and
the rpc loop sleeps [200] ms. -/
theorem claim9_backoff_schedule_witness :
    (ModuleClient.call 2
      (fun _ => (Except.error (ClientError.Timeout 1000)
        : Except ClientError Unit))).delays = [100, 200] ∧
    (RpcClient.execute_with_retry 2
      (fun _ => (Except.error (CommunexError.RequestTimeout "t")
        : Except CommunexError Unit))).delays = [200] := by
  have h := claim9_backoff_schedule 2
    (fun _ => (Except.error (CommunexError.RequestTimeout "t")
      : Except CommunexError Unit))
    (fun _ => (Except.error (ClientError.Timeout 1000)
      : Except ClientError Unit))
    (fun _ => ⟨CommunexError.RequestTimeout "t", rfl⟩)
    (fun _ => ⟨ClientError.Timeout 1000, rfl, rfl⟩)
  exact ⟨h.1.trans (by decide), h.2.trans (by decide)⟩

/-- Claim C2, counterexample: a one request batch (positional id 0) whose
wire response is the one element array [{}]: the element carries neither
an error nor a result field, so RpcClient::batch_request drops it
silently and len(successes) + len(errors) = 0, not 1. -/
theorem claim2_counterexample :
    (BatchRequest.new.add_request "query_balance" Json.null).requests.length = 1 ∧
    (processBatchResponses [Json.obj []]).successes.length
      + (processBatchResponses [Json.obj []]).errors.length = 0 ∧
    (0 : Nat) ≠ 1 :=
  ⟨rfl, rfl, by decide⟩

/-- Claim C2, amended: for a wire response array in which every element
carries an error field or a result field and whose element ids echo the
positional request ids off, off + 1, ..., RpcClient::batch_request
demultiplexes it into a BatchOutcome with
len(successes) + len(errors) = n, where the indexed elements are
partitioned by presence of the error field: error elements contribute
their request_id (the element id truncated to u32) to the error sequence
and the others contribute their result to the success sequence, both in
input order. Elements with neither field are dropped, which is why the
hypothesis is needed. -/
theorem claim2_batch_partition (b : BatchRequest) (resps : List Json) (off : Nat)
    (hone : ∀ r ∈ resps, ((r.get "error").isNone → (r.get "result").isSome))
    (hids : resps.map (fun r => (r.get "id").bind Json.as_u64)
        = (List.range' off resps.length).map some) :
    (RpcClient.batch_request b (.ok resps)).result
        = .ok (processBatchResponses resps) ∧
    (RpcClient.batch_request b (.ok resps)).transportCalls = [b.requests] ∧
    (processBatchResponses resps).successes.length
        + (processBatchResponses resps).errors.length = resps.length ∧
    (processBatchResponses resps).successes
        = (((List.range' off resps.length).zip resps).filter
             (fun p => (p.2.get "error").isNone)).map
            (fun p => (p.2.get "result").getD .null) ∧
    (processBatchResponses resps).errors.map RpcErrorDetail.request_id
        = (((List.range' off resps.length).zip resps).filter
             (fun p => (p.2.get "error").isSome)).map
            (fun p => some (p.1 % 2 ^ 32)) := by
  obtain ⟨h1, h2, h3⟩ := processBatch_characterization resps off hone hids
  exact ⟨rfl, rfl, h1, h2, h3⟩

/-- Claim C2 witness: a two element response with a success at id 0 and
an error at id 1 demultiplexes into one success and one error carrying
request_id 1. -/
theorem claim2_batch_partition_witness :
    (processBatchResponses
        [Json.obj [("id", Json.num 0), ("result", Json.str "ok")],
         Json.obj [("id", Json.num 1),
           ("error", Json.obj [("code", Json.num (-32602)),
             ("message", Json.str "Invalid params")])]]).errors.map
        RpcErrorDetail.request_id
      = [some 1] := by
  have h := claim2_batch_partition BatchRequest.new
    [Json.obj [("id", Json.num 0), ("result", Json.str "ok")],
     Json.obj [("id", Json.num 1),
       ("error", Json.obj [("code", Json.num (-32602)),
         ("message", Json.str "Invalid params")])]] 0
    (by decide) (by decide)
  exact h.2.2.2.2.trans (by decide)

/-- Claim C3 (confirmed): QueryMapCache::get returns Some exactly when an
entry for the key is present and now is strictly before its expires_at;
it then returns that entry value and increments only the hit counter,
and in every other case (absent or stale but present) it returns none
and increments only the miss counter; the entry map is never changed. -/
theorem claim3_cache_get_spec (c : QueryMapCache) (key : String) (now : Nat) :
    ((c.get key now).1.isSome
        ↔ ∃ e, lookupEntry c.entries key = some e ∧ now < e.expires_at) ∧
    (∀ e, lookupEntry c.entries key = some e → now < e.expires_at →
        (c.get key now).1 = some e.value) ∧
    ((c.get key now).1.isSome →
        (c.get key now).2.metrics
          = { c.metrics with hits := c.metrics.hits + 1 }) ∧
    ((c.get key now).1 = none →
        (c.get key now).2.metrics
          = { c.metrics with misses := c.metrics.misses + 1 }) ∧
    (c.get key now).2.entries = c.entries := by
  cases hl : lookupEntry c.entries key with
  | none => simp [QueryMapCache.get, hl]
  | some e =>
      by_cases hfresh : now < e.expires_at
      · refine ⟨?_, ?_, ?_, ?_, ?_⟩
        · simp [QueryMapCache.get, hl, hfresh]
        · intro e2 he2 _
          cases he2
          simp [QueryMapCache.get, hl, hfresh]
        · intro _
          simp [QueryMapCache.get, hl, hfresh]
        · intro hnone
          simp [QueryMapCache.get, hl, hfresh] at hnone
        · simp [QueryMapCache.get, hl, hfresh]
      · refine ⟨?_, ?_, ?_, ?_, ?_⟩
        · simp only [QueryMapCache.get, hl, if_neg hfresh]
          simp only [Option.isSome_none, Bool.false_eq_true, false_iff]
          rintro ⟨e2, he2, hlt⟩
          cases he2
          exact hfresh hlt
        · intro e2 he2 hlt
          cases he2
          exact absurd hlt hfresh
        · intro hs
          simp [QueryMapCache.get, hl, hfresh] at hs
        · intro _
          simp [QueryMapCache.get, hl, hfresh]
        · simp [QueryMapCache.get, hl, hfresh]

/-- Claim C3 witness: a fresh entry is served as a hit with its value. -/
theorem claim3_cache_get_spec_witness :
    ((QueryMapCache.mk [("a", ⟨⟨"v1"⟩, 10⟩)] ⟨10, 1, 100⟩
        ⟨0, 0, 0, 0, 0, 0⟩).get "a" 5).1 = some ⟨"v1"⟩ :=
  (claim3_cache_get_spec
    (QueryMapCache.mk [("a", ⟨⟨"v1"⟩, 10⟩)] ⟨10, 1, 100⟩ ⟨0, 0, 0, 0, 0, 0⟩)
    "a" 5).2.1 ⟨⟨"v1"⟩, 10⟩ rfl (by decide)

/-- Claim C5 (confirmed): inserting max_entries + 1 distinct keys at
strictly increasing instants into a fresh cache leaves exactly
max_entries entries, whose keys are the inserted keys minus the first
one; the first inserted key (the one with the earliest expires_at under
the constant ttl) is absent; and in general every capacity overflow on a
duplicate free map evicts exactly one entry. -/
theorem claim5_cache_eviction (cfg : CacheConfig)
    (ps : List (String × QueryResult × Nat))
    (hlen : ps.length = cfg.max_entries + 1)
    (hnodup : (ps.map (fun p => p.1)).Nodup)
    (hmono : (ps.map (fun p => p.2.2)).Pairwise (· < ·)) :
    (insertAll (QueryMapCache.new cfg) ps).entries.length = cfg.max_entries ∧
    (insertAll (QueryMapCache.new cfg) ps).entries.map Prod.fst
        = (ps.map (fun p => p.1)).tail ∧
    (∀ p0 ∈ ps.head?,
      lookupEntry (insertAll (QueryMapCache.new cfg) ps).entries p0.1 = none) ∧
    (∀ (c : QueryMapCache) (key : String) (v : QueryResult) (now : Nat),
      (c.entries.map Prod.fst).Nodup →
      (insertEntry c.entries key ⟨v, now + c.config.ttl⟩).length
          > c.config.max_entries →
      (c.set key v now).entries.length + 1
        = (insertEntry c.entries key ⟨v, now + c.config.ttl⟩).length) := by
  obtain ⟨h1, h2, h3⟩ := cache_eviction_scenario cfg ps hlen hnodup hmono
  exact ⟨h1, h2, h3,
    fun c key v now hn ho => set_overflow_evicts_one c key v now hn ho⟩

/-- Claim C5 witness: capacity 2, keys a, b, c inserted at instants
0, 1, 2: the cache ends holding exactly b and c, and a is absent. -/
theorem claim5_cache_eviction_witness :
    (insertAll (QueryMapCache.new ⟨10, 1, 2⟩)
        [("a", ⟨"1"⟩, 0), ("b", ⟨"2"⟩, 1), ("c", ⟨"3"⟩, 2)]).entries.map Prod.fst
      = ["b", "c"] := by
  have h := claim5_cache_eviction ⟨10, 1, 2⟩
    [("a", ⟨"1"⟩, 0), ("b", ⟨"2"⟩, 1), ("c", ⟨"3"⟩, 2)] rfl (by decide) (by decide)
  exact h.2.1.trans (by decide)

set_option maxRecDepth 8000 in
/-- Claim C6 (code bug evidence): a batch of 101 requests is exactly what
BatchRequest::validate rejects with the claimed ValidationError, yet
RpcClient::batch_request never invokes validate: it performs its single
transport call with the oversized body and, given a well formed wire
response, returns a successful BatchOutcome instead of failing fast. -/
theorem claim6_oversized_batch_not_validated :
    ((List.range 101).foldl (fun b _ => b.add_request "query_balance" Json.null)
        BatchRequest.new).requests.length = 101 ∧
    BatchRequest.validate ((List.range 101).foldl
        (fun b _ => b.add_request "query_balance" Json.null) BatchRequest.new)
      = .error (.ValidationError
          "Batch request cannot contain more than 100 requests") ∧
    (RpcClient.batch_request ((List.range 101).foldl
        (fun b _ => b.add_request "query_balance" Json.null) BatchRequest.new)
        (.ok [])).transportCalls.length = 1 ∧
    (RpcClient.batch_request ((List.range 101).foldl
        (fun b _ => b.add_request "query_balance" Json.null) BatchRequest.new)
        (.ok [])).result = .ok ⟨[], []⟩ :=
  ⟨rfl, rfl, rfl, rfl⟩

/-- Claim C7, counterexample: RpcClient::request_with_path receives a
response with neither a result nor an error field and silently converts
it into the success value \x7b\x7d instead of failing with a malformed
response or parse error. -/
theorem claim7_counterexample :
    (Json.obj []).get "error" = none ∧
    (Json.obj []).get "result" = none ∧
    RpcClient.request_with_path_handle (Json.obj []) = .ok (Json.obj []) :=
  ⟨rfl, rfl, rfl⟩

/-- Claim C7, amended: in RpcClient::request (handle_rpc_response) a
response carrying an error field yields RpcError with that code (wrapped
to i32) and message, and a response with neither field fails with a
ParseError; RpcClient::request_with_path handles the error case the same
way but silently converts the neither field case into an empty object
success. -/
theorem claim7_response_field_handling (v err w : Json) (code : Int) (msg : String)
    (hv : v.get "error" = some err)
    (hc : (err.get "code").bind Json.as_i64 = some code)
    (hm : (err.get "message").bind Json.as_str = some msg)
    (hw1 : w.get "error" = none) (hw2 : w.get "result" = none) :
    RpcClient.handle_rpc_response v = .error (.RpcError (i64_as_i32 code) msg) ∧
    RpcClient.handle_rpc_response w
        = .error (.ParseError "Missing result field") ∧
    RpcClient.request_with_path_handle w = .ok (Json.obj []) := by
  refine ⟨?_, ?_, ?_⟩
  · simp [RpcClient.handle_rpc_response, hv, hc, hm]
  · simp [RpcClient.handle_rpc_response, hw1, hw2]
  · simp [RpcClient.request_with_path_handle, hw1, hw2]

/-- Claim C7 witness: a concrete error response yields the RpcError with
its code and message. -/
theorem claim7_response_field_handling_witness :
    RpcClient.handle_rpc_response (Json.obj [("error", Json.obj
        [("code", Json.num (-32601)), ("message", Json.str "Method not found")])])
      = .error (.RpcError (i64_as_i32 (-32601)) "Method not found") :=
  (claim7_response_field_handling
    (Json.obj [("error", Json.obj
      [("code", Json.num (-32601)), ("message", Json.str "Method not found")])])
    (Json.obj [("code", Json.num (-32601)), ("message", Json.str "Method not found")])
    (Json.obj [("jsonrpc", Json.str "2.0")])
    (-32601) "Method not found" rfl (by decide) rfl rfl rfl).1

/-- Claim C8 (confirmed): a failing background refresh of a key leaves
the entry map untouched (so every foreground get observes the same
value) and increments only the refresh error counter; a successful
refresh of a still present key replaces its value, resets its expiry to
now + ttl and increments only the refresh success counter. -/
theorem claim8_refresh_failure_isolation (c : QueryMapCache) (key : String)
    (e : CommunexError) (v : QueryResult) (now : Nat) :
    ((c.refreshKey key (.error e) now).entries = c.entries ∧
     (c.refreshKey key (.error e) now).metrics
        = { c.metrics with
            refresh_error_count := c.metrics.refresh_error_count + 1 } ∧
     (∀ k2 n2, ((c.refreshKey key (.error e) now).get k2 n2).1
        = (c.get k2 n2).1)) ∧
    (∀ e0, lookupEntry c.entries key = some e0 →
      lookupEntry (c.refreshKey key (.ok v) now).entries key
          = some ⟨v, now + c.config.ttl⟩ ∧
      (c.refreshKey key (.ok v) now).metrics
          = { c.metrics with
              refresh_success_count := c.metrics.refresh_success_count + 1 }) := by
  refine ⟨⟨rfl, rfl, ?_⟩, ?_⟩
  · intro k2 n2
    cases hl : lookupEntry c.entries k2 with
    | none => simp [QueryMapCache.get, QueryMapCache.refreshKey, hl]
    | some e2 =>
        by_cases hf : n2 < e2.expires_at
        · simp [QueryMapCache.get, QueryMapCache.refreshKey, hl, hf]
        · simp [QueryMapCache.get, QueryMapCache.refreshKey, hl, hf]
  · intro e0 h0
    constructor
    · show lookupEntry (updateEntry c.entries key v (now + c.config.ttl)) key = _
      exact lookupEntry_updateEntry_self c.entries key v _ e0 h0
    · rfl

/-- Claim C8 witness: refreshing the present key a at instant 7 with ttl
10 stores the new value with expiry 17. -/
theorem claim8_refresh_failure_isolation_witness :
    lookupEntry ((QueryMapCache.mk [("a", ⟨⟨"old"⟩, 5⟩)] ⟨10, 1, 100⟩
        ⟨0, 0, 0, 0, 0, 0⟩).refreshKey "a" (.ok ⟨"new"⟩) 7).entries "a"
      = some ⟨⟨"new"⟩, 17⟩ :=
  ((claim8_refresh_failure_isolation
      (QueryMapCache.mk [("a", ⟨⟨"old"⟩, 5⟩)] ⟨10, 1, 100⟩ ⟨0, 0, 0, 0, 0, 0⟩)
      "a" (CommunexError.ConnectionError "down") ⟨"new"⟩ 7).2
    ⟨⟨"old"⟩, 5⟩ rfl).1

/-- Claim C10 (confirmed): one refresh step never adds a key: the key set
of the entry map is exactly preserved, on success and on failure alike,
and any key absent before the step is still absent after it. -/
theorem claim10_refresh_never_inserts (c : QueryMapCache) (key : String)
    (r : Except CommunexError QueryResult) (now : Nat) :
    (c.refreshKey key r now).entries.map Prod.fst = c.entries.map Prod.fst ∧
    ∀ k2, lookupEntry c.entries k2 = none →
      lookupEntry (c.refreshKey key r now).entries k2 = none := by
  have hkeys : (c.refreshKey key r now).entries.map Prod.fst
      = c.entries.map Prod.fst := by
    cases r with
    | ok v =>
        simpa [QueryMapCache.refreshKey] using
          updateEntry_map_fst c.entries key v (now + c.config.ttl)
    | error e => rfl
  refine ⟨hkeys, fun k2 h2 => ?_⟩
  rw [lookupEntry_eq_none] at h2 ⊢
  rw [hkeys]
  exact h2

/-- Claim C10 witness: refreshing the key b, which was never cached,
leaves b absent. -/
theorem claim10_refresh_never_inserts_witness :
    lookupEntry ((QueryMapCache.mk [("a", ⟨⟨"x"⟩, 5⟩)] ⟨10, 1, 100⟩
        ⟨0, 0, 0, 0, 0, 0⟩).refreshKey "b" (.ok ⟨"y"⟩) 7).entries "b" = none :=
  (claim10_refresh_never_inserts
    (QueryMapCache.mk [("a", ⟨⟨"x"⟩, 5⟩)] ⟨10, 1, 100⟩ ⟨0, 0, 0, 0, 0, 0⟩)
    "b" (.ok ⟨"y"⟩) 7).2 "b" (by decide)
